import Mathlib

/-
  Verification of the agorusta chat backend core against its specification.

  The definitions below are shallow embeddings of the Rust source:
  - pagination engine      : backend/lambdas/api/src/messages.rs (list_messages)
                             and backend/lambdas/api/src/dms.rs (list_dm_messages)
  - fan-out engine         : messages.rs (broadcast_message), dms.rs (broadcast_dm)
  - subscription protocol  : backend/lambdas/websocket/src/main.rs (handle_message)
  - invite allocation      : backend/lambdas/api/src/invites.rs (create_invite)
  - DM conversation ids    : dms.rs (make_conversation_id)
  - content validation     : messages.rs (create_message), dms.rs (send_dm_message)

  The DynamoDB message table for one conversation is modelled as a list of
  messages kept in ascending created_at (sort key) order, which is exactly the
  native order the store maintains; a query with scan_index_forward(false)
  reads that list in reverse.  Store writes are modelled as always succeeding
  (the 500 store-failure paths of the source are failures of the external
  collaborator, out of scope per the spec).
-/

deriving instance DecidableEq for Except

namespace Agorusta

/-- Mirrors struct Message of messages.rs (content kept as a list of unicode
scalar values so that UTF-8 byte lengths can be computed faithfully). -/
structure Message where
  id : String
  channel_id : String
  author_id : String
  author_username : String
  content : List Char
  created_at : Int
deriving DecidableEq

/-- Mirrors struct MessagesResponse of messages.rs (and DmMessagesResponse of
dms.rs, which is identical up to the message type). -/
structure MessagesResponse where
  messages : List Message
  has_more : Bool
  next_cursor : Option Int
deriving DecidableEq

/-- The key condition of the query in list_messages: "channel_id = :cid" when
before is absent, "channel_id = :cid AND created_at < :before" otherwise.
The log argument is the per-conversation slice of the messages table in
ascending created_at order. -/
def restrict_before (log : List Message) (before : Option Int) : List Message :=
  match before with
  | none => log
  | some b => log.filter (fun m => decide (m.created_at < b))

/-- The DynamoDB query of list_messages: key condition, newest first
(scan_index_forward(false)), fetching at most n items. -/
def query_desc (log : List Message) (before : Option Int) (n : Nat) : List Message :=
  ((restrict_before log before).reverse).take n

/-- list_messages (messages.rs lines 139-202, identically list_dm_messages of
dms.rs lines 291-346): clamp the limit to [1,100], fetch limit+1 newest-first
records, truncate to limit when more were fetched, and derive has_more and
next_cursor.  Note the source truncates first and then takes messages.last(),
so the cursor is the last element of the truncated page. -/
def list_messages (log : List Message) (limit : Nat) (before : Option Int) :
    MessagesResponse :=
  let lim := Nat.max (Nat.min limit 100) 1
  let fetched := query_desc log before (lim + 1)
  let has_more : Bool := decide (lim < fetched.length)
  let page := if lim < fetched.length then fetched.take lim else fetched
  let next_cursor : Option Int :=
    if lim < fetched.length then page.getLast?.map (fun m => m.created_at) else none
  ⟨page, has_more, next_cursor⟩

/-- The client-side chaining protocol of claim C1: call list_messages with a
fixed limit, feed each next_cursor back as before, stop when has_more is
false.  Fuel bounds the number of pages; paginate supplies enough fuel. -/
def list_loop (log : List Message) (k : Nat) : Option Int → Nat → List Message
  | _, 0 => []
  | before, Nat.succ fuel =>
    let r := list_messages log k before
    if r.has_more then r.messages ++ list_loop log k r.next_cursor fuel
    else r.messages

/-- All pages of a conversation, obtained by chaining cursors from the start. -/
def paginate (log : List Message) (k : Nat) : List Message :=
  list_loop log k none (log.length + 1)

/-- In a strictly descending list, filtering for timestamps below the one at
index i keeps exactly the part after index i. -/
theorem filter_lt_getElem :
    ∀ (D : List Message),
      D.Pairwise (fun a b => b.created_at < a.created_at) →
      ∀ (i : Nat) (hi : i < D.length),
        D.filter (fun m => decide (m.created_at < (D.get ⟨i, hi⟩).created_at)) =
          D.drop (i + 1) := by
  intro D
  induction D with
  | nil => intro _ i hi; simp at hi
  | cons a tl ih =>
    intro hD i hi
    rcases List.pairwise_cons.mp hD with ⟨ha, htl⟩
    cases i with
    | zero =>
      have h1 : decide (a.created_at < a.created_at) = false := by simp
      simp only [List.get, List.filter_cons, h1, Bool.false_eq_true, if_false,
        List.drop_succ_cons, List.drop_zero]
      exact List.filter_eq_self.mpr fun m hm => decide_eq_true (ha m hm)
    | succ j =>
      have hj : j < tl.length := Nat.lt_of_succ_lt_succ hi
      have hmem : tl.get ⟨j, hj⟩ ∈ tl := tl.get_mem j hj
      have h1 : decide (a.created_at < (tl.get ⟨j, hj⟩).created_at) = false :=
        decide_eq_false (not_lt.mpr (le_of_lt (ha _ hmem)))
      have hget : (a :: tl).get ⟨j + 1, hi⟩ = tl.get ⟨j, hj⟩ := rfl
      simp only [hget, List.filter_cons, h1, Bool.false_eq_true, if_false,
        List.drop_succ_cons]
      exact ih htl j hj

/-- The last element of a nonempty full prefix, as an indexed lookup. -/
theorem getLast?_take_eq (R : List Message) (c : Nat) (h1 : 0 < c)
    (h2 : c ≤ R.length) : (R.take c).getLast? = R[c - 1]? := by
  rw [List.getLast?_eq_getElem?, List.length_take, Nat.min_eq_left h2,
    List.getElem?_take, if_pos (Nat.sub_lt h1 Nat.one_pos)]

/-- Main invariant of cursor chaining: if the current cursor restricts the
descending view of the log to its suffix from position n, the loop returns
exactly that suffix. -/
theorem list_loop_eq_drop (log : List Message)
    (hlog : log.Pairwise (fun a b => a.created_at < b.created_at)) (k : Nat) :
    ∀ (fuel n : Nat) (before : Option Int),
      (restrict_before log before).reverse = log.reverse.drop n →
      (log.reverse.drop n).length < fuel →
      list_loop log k before fuel = log.reverse.drop n := by
  have hD : log.reverse.Pairwise (fun a b => b.created_at < a.created_at) :=
    (List.pairwise_reverse).mpr hlog
  intro fuel
  induction fuel with
  | zero => intro n before _ hlt; omega
  | succ fuel ih =>
    intro n before hres hlt
    have hc1 : 1 ≤ Nat.max (Nat.min k 100) 1 := Nat.le_max_right _ _
    have hfetch : query_desc log before (Nat.max (Nat.min k 100) 1 + 1) =
        (log.reverse.drop n).take (Nat.max (Nat.min k 100) 1 + 1) := by
      rw [query_desc, hres]
    by_cases hlen : (log.reverse.drop n).length ≤ Nat.max (Nat.min k 100) 1
    · -- last page: everything that remains fits, has_more is false
      have htake : (log.reverse.drop n).take (Nat.max (Nat.min k 100) 1 + 1) =
          log.reverse.drop n :=
        List.take_of_length_le (le_trans hlen (Nat.le_succ _))
      rw [list_loop]
      have hnot : ¬ (Nat.max (Nat.min k 100) 1 < (log.reverse.drop n).length) :=
        Nat.not_lt.mpr hlen
      have hdec : decide (Nat.max (Nat.min k 100) 1 < (log.reverse.drop n).length)
          = false := decide_eq_false hnot
      simp only [list_messages, hfetch, htake]
      simp only [hdec, Bool.false_eq_true, if_false, if_neg hnot]
    · -- full page followed by a recursive call on the remaining suffix
      push_neg at hlen
      have hlen1 : Nat.max (Nat.min k 100) 1 + 1 ≤ (log.reverse.drop n).length := hlen
      have hflen : ((log.reverse.drop n).take (Nat.max (Nat.min k 100) 1 + 1)).length =
          Nat.max (Nat.min k 100) 1 + 1 := by
        rw [List.length_take, Nat.min_eq_left hlen1]
      have hcondF : Nat.max (Nat.min k 100) 1 <
          ((log.reverse.drop n).take (Nat.max (Nat.min k 100) 1 + 1)).length := by
        rw [hflen]; omega
      have hpage : ((log.reverse.drop n).take (Nat.max (Nat.min k 100) 1 + 1)).take
          (Nat.max (Nat.min k 100) 1) = (log.reverse.drop n).take (Nat.max (Nat.min k 100) 1) := by
        rw [List.take_take, Nat.min_eq_left (Nat.le_succ _)]
      have hidx : Nat.max (Nat.min k 100) 1 - 1 < (log.reverse.drop n).length := by omega
      have hcur : ((log.reverse.drop n).take (Nat.max (Nat.min k 100) 1)).getLast? =
          some ((log.reverse.drop n).get ⟨Nat.max (Nat.min k 100) 1 - 1, hidx⟩) := by
        rw [getLast?_take_eq _ _ (by omega) (by omega)]
        exact List.getElem?_eq_getElem hidx
      have hni : n + (Nat.max (Nat.min k 100) 1 - 1) < log.reverse.length := by
        have := List.length_drop n log.reverse
        omega
      have hgetd : (log.reverse.drop n).get ⟨Nat.max (Nat.min k 100) 1 - 1, hidx⟩ =
          log.reverse.get ⟨n + (Nat.max (Nat.min k 100) 1 - 1), hni⟩ := by
        simp [List.get_eq_getElem, List.getElem_drop]
      -- the next cursor restricts the log to the suffix after the page
      have hres2 : (restrict_before log
            (some ((log.reverse.get ⟨n + (Nat.max (Nat.min k 100) 1 - 1), hni⟩).created_at))).reverse =
          log.reverse.drop (n + Nat.max (Nat.min k 100) 1) := by
        show (log.filter _).reverse = _
        rw [← List.filter_reverse]
        have := filter_lt_getElem log.reverse hD (n + (Nat.max (Nat.min k 100) 1 - 1)) hni
        rw [this]
        congr 1
        omega
      have hlt2 : (log.reverse.drop (n + Nat.max (Nat.min k 100) 1)).length < fuel := by
        have h1 := List.length_drop (n + Nat.max (Nat.min k 100) 1) log.reverse
        have h2 := List.length_drop n log.reverse
        omega
      have hrec := ih (n + Nat.max (Nat.min k 100) 1) _ hres2 hlt2
      rw [list_loop]
      have hdec : decide (Nat.max (Nat.min k 100) 1 <
          ((log.reverse.drop n).take (Nat.max (Nat.min k 100) 1 + 1)).length)
          = true := decide_eq_true hcondF
      simp only [list_messages, hfetch]
      simp only [hdec, eq_self_iff_true, if_true, if_pos hcondF]
      rw [hpage, hcur]
      simp only [Option.map_some']
      rw [hgetd, hrec]
      have hdd : log.reverse.drop (n + Nat.max (Nat.min k 100) 1) =
          (log.reverse.drop n).drop (Nat.max (Nat.min k 100) 1) :=
        (List.drop_drop _ _ _).symm
      rw [hdd, List.take_append_drop]

/-- Claim C1: for a conversation whose stored messages have strictly increasing
created_at timestamps, chaining ListMessages pages with limit k (passing each
nextCursor as the next before) until hasMore is false returns exactly the
stored messages, newest first, with no duplicates and no omissions. -/
theorem pagination_completeness (log : List Message)
    (hlog : log.Pairwise (fun a b => a.created_at < b.created_at))
    (k : Nat) (hk1 : 1 ≤ k) (hk2 : k ≤ log.length + 5) :
    paginate log k = log.reverse ∧
      log.reverse.Pairwise (fun a b => b.created_at < a.created_at) := by
  constructor
  · have h0 : (restrict_before log none).reverse = log.reverse.drop 0 := by
      simp [restrict_before]
    have hlt : (log.reverse.drop 0).length < log.length + 1 := by
      simp
    have := list_loop_eq_drop log hlog k (log.length + 1) 0 none h0 hlt
    simpa [paginate] using this
  · exact (List.pairwise_reverse).mpr hlog

/-- Claim C2 (amended): when more than limit records are fetched, the page is
truncated to limit, hasMore is true and nextCursor is the created_at of the
last item of the truncated page, i.e. of the limit-th fetched item (the source
truncates before reading messages.last()); with at most limit records fetched,
hasMore is false and nextCursor is null. -/
theorem list_messages_cursor (log : List Message) (limit : Nat)
    (before : Option Int) :
    (Nat.max (Nat.min limit 100) 1 <
        (query_desc log before (Nat.max (Nat.min limit 100) 1 + 1)).length →
      list_messages log limit before =
        ⟨(query_desc log before (Nat.max (Nat.min limit 100) 1 + 1)).take
            (Nat.max (Nat.min limit 100) 1),
          true,
          ((query_desc log before
              (Nat.max (Nat.min limit 100) 1 + 1))[Nat.max (Nat.min limit 100) 1 - 1]?).map
            (fun m => m.created_at)⟩) ∧
    ((query_desc log before (Nat.max (Nat.min limit 100) 1 + 1)).length ≤
        Nat.max (Nat.min limit 100) 1 →
      list_messages log limit before =
        ⟨query_desc log before (Nat.max (Nat.min limit 100) 1 + 1), false, none⟩) := by
  constructor
  · intro h
    have hdec : decide (Nat.max (Nat.min limit 100) 1 <
        (query_desc log before (Nat.max (Nat.min limit 100) 1 + 1)).length) = true :=
      decide_eq_true h
    simp only [list_messages, hdec, if_pos h, MessagesResponse.mk.injEq]
    refine ⟨trivial, trivial, ?_⟩
    rw [getLast?_take_eq _ _
      (Nat.lt_of_lt_of_le Nat.zero_lt_one (Nat.le_max_right _ _)) (le_of_lt h)]
  · intro h
    have hnot := Nat.not_lt.mpr h
    have hdec : decide (Nat.max (Nat.min limit 100) 1 <
        (query_desc log before (Nat.max (Nat.min limit 100) 1 + 1)).length) = false :=
      decide_eq_false hnot
    simp only [list_messages, hdec, if_neg hnot]

/-- The three-message scenario of the spec: m1 at t=100, m2 at t=200, m3 at
t=300 in one channel. -/
def msg1 : Message := ⟨"m1", "C", "U", "u", ['a'], 100⟩

def msg2 : Message := ⟨"m2", "C", "U", "u", ['b'], 200⟩

def msg3 : Message := ⟨"m3", "C", "U", "u", ['c'], 300⟩

def log3 : List Message := [msg1, msg2, msg3]

/-- Claim C2 as stated is false: with three messages at 100/200/300 and
limit 2, the code returns nextCursor 200 (the last item of the truncated
page), not the created_at 100 of the third fetched item before truncation. -/
theorem list_messages_cursor_counterexample :
    (list_messages log3 2 none).next_cursor = some 200 ∧
    ((query_desc log3 none 3)[2]?).map (fun m => m.created_at) = some 100 ∧
    some (200 : Int) ≠ some (100 : Int) := by decide

/-- Witness for the amended claim C2 on the spec's own scenario. -/
theorem list_messages_cursor_witness :
    list_messages log3 2 none = ⟨[msg3, msg2], true, some 200⟩ := by
  have h := (list_messages_cursor log3 2 none).1 (by decide)
  exact h.trans (by decide)

/-- Witness for claim C1 on the three-message scenario with limit 2. -/
theorem pagination_completeness_witness :
    paginate log3 2 = [msg3, msg2, msg1] :=
  (pagination_completeness log3 (by decide) 2 (by decide) (by decide)).1

/-!  Connection registry and subscription protocol
     (backend/lambdas/websocket/src/main.rs).  A registry item is projected to
     the attributes the verified operations read and write: its key
     connection_id and its channels string set.  DynamoDB UpdateItem is an
     upsert: with no condition expression it creates the item when the key is
     absent. -/

/-- One item of the CONNECTIONS_TABLE, projected to connection_id (key) and
channels (string set). -/
structure ConnectionRecord where
  connection_id : String
  channels : List String
deriving DecidableEq

/-- DynamoDB string-set ADD of one element. -/
def add_to_set (l : List String) (x : String) : List String :=
  if x ∈ l then l else l ++ [x]

/-- DynamoDB string-set DELETE of one element. -/
def remove_from_set (l : List String) (x : String) : List String :=
  l.filter (fun y => decide (y ≠ x))

/-- The UpdateItem of the subscribe arm (main.rs lines 210-221):
"ADD channels :channel" keyed by connection_id, an upsert. -/
def subscribe_update (table : List ConnectionRecord) (id ch : String) :
    List ConnectionRecord :=
  if table.any (fun c => decide (c.connection_id = id)) then
    table.map (fun c =>
      if c.connection_id = id then ⟨c.connection_id, add_to_set c.channels ch⟩
      else c)
  else table ++ [⟨id, [ch]⟩]

/-- The UpdateItem of the unsubscribe arm (main.rs lines 262-273):
"DELETE channels :channel" keyed by connection_id, an upsert. -/
def unsubscribe_update (table : List ConnectionRecord) (id ch : String) :
    List ConnectionRecord :=
  if table.any (fun c => decide (c.connection_id = id)) then
    table.map (fun c =>
      if c.connection_id = id then ⟨c.connection_id, remove_from_set c.channels ch⟩
      else c)
  else table ++ [⟨id, []⟩]

/-- handle_message (main.rs lines 171-310) after JSON parsing, with the store
modelled as always succeeding (the 500 branches are store failures of the
external collaborator).  Returns the response status code and the new table. -/
def handle_message (table : List ConnectionRecord) (connection_id : String)
    (action : String) (channel_id : Option String) :
    Nat × List ConnectionRecord :=
  if action = "subscribe" then
    match channel_id with
    | none => (400, table)
    | some ch => (200, subscribe_update table connection_id ch)
  else if action = "unsubscribe" then
    match channel_id with
    | none => (400, table)
    | some ch => (200, unsubscribe_update table connection_id ch)
  else (400, table)

/-- The subscription set of a connection as the registry stores it. -/
def channels_of (table : List ConnectionRecord) (id : String) : List String :=
  ((table.find? (fun c => decide (c.connection_id = id))).map
    (fun c => c.channels)).getD []

/-- Claim C4 as stated is false: subscribing from an unregistered connection
id does not fail with NotFound; the upsert returns 200 and creates a registry
record for the unregistered id. -/
theorem subscribe_unregistered_counterexample :
    handle_message [] "c9" "subscribe" (some "ch") =
      (200, [⟨"c9", ["ch"]⟩]) ∧
    (200 : Nat) ≠ 404 ∧
    ([ConnectionRecord.mk "c9" ["ch"]] : List ConnectionRecord) ≠ [] := by decide

/-- Claim C4 (amended): Subscribe and Unsubscribe never check that the
connection is registered and never fail with NotFound; on an unregistered
connection id the UpdateItem upsert succeeds with 200, Subscribe creating a
record holding just the new subscription and Unsubscribe creating a record
with an empty subscription set. -/
theorem handle_unregistered (table : List ConnectionRecord) (id ch : String)
    (h : table.any (fun c => decide (c.connection_id = id)) = false) :
    handle_message table id "subscribe" (some ch) = (200, table ++ [⟨id, [ch]⟩]) ∧
    handle_message table id "unsubscribe" (some ch) = (200, table ++ [⟨id, []⟩]) := by
  constructor
  · simp [handle_message, subscribe_update, h]
  · simp [handle_message, unsubscribe_update, h]

/-- Witness for the amended claim C4 on a one-record registry and a foreign
connection id. -/
theorem handle_unregistered_witness :
    handle_message [⟨"a", []⟩] "b" "subscribe" (some "ch") =
      (200, [⟨"a", []⟩, ⟨"b", ["ch"]⟩]) :=
  (handle_unregistered [⟨"a", []⟩] "b" "ch" (by decide)).1

theorem mem_add_to_set_self (l : List String) (x : String) : x ∈ add_to_set l x := by
  by_cases h : x ∈ l <;> simp [add_to_set, h]

theorem add_to_set_idem (l : List String) (x : String) :
    add_to_set (add_to_set l x) x = add_to_set l x := by
  rw [add_to_set, if_pos (mem_add_to_set_self l x)]

theorem not_mem_remove_from_set (l : List String) (x : String) :
    x ∉ remove_from_set l x := by
  intro h
  have := (List.mem_filter.mp h).2
  simp at this

theorem remove_from_set_idem (l : List String) (x : String) :
    remove_from_set (remove_from_set l x) x = remove_from_set l x := by
  rw [remove_from_set, remove_from_set, List.filter_filter]
  apply List.filter_congr
  intro y _
  simp [Bool.and_self]

/-- The per-record updater of a keyed UpdateItem leaves every connection_id
unchanged, so registration checks are invariant under it. -/
theorem any_update_eq (table : List ConnectionRecord) (id : String)
    (g : List String → List String) :
    (table.map (fun c =>
        if c.connection_id = id then ⟨c.connection_id, g c.channels⟩ else c)).any
        (fun c => decide (c.connection_id = id)) =
      table.any (fun c => decide (c.connection_id = id)) := by
  rw [List.any_map]
  congr 1
  funext c
  by_cases hc : c.connection_id = id <;> simp [Function.comp, hc]

theorem find?_update_eq (table : List ConnectionRecord) (id : String)
    (g : List String → List String) :
    (table.map (fun c =>
        if c.connection_id = id then ⟨c.connection_id, g c.channels⟩ else c)).find?
        (fun c => decide (c.connection_id = id)) =
      (table.find? (fun c => decide (c.connection_id = id))).map (fun c =>
        if c.connection_id = id then ⟨c.connection_id, g c.channels⟩ else c) := by
  rw [List.find?_map]
  have hfg : ((fun c : ConnectionRecord => decide (c.connection_id = id)) ∘
      fun c : ConnectionRecord =>
        if c.connection_id = id then ⟨c.connection_id, g c.channels⟩ else c) =
      fun c : ConnectionRecord => decide (c.connection_id = id) := by
    funext c
    by_cases hc : c.connection_id = id <;> simp [Function.comp, hc]
  rw [hfg]

/-- A keyed UpdateItem on a registered connection rewrites exactly that
connection's channel set. -/
theorem channels_of_update (table : List ConnectionRecord) (id : String)
    (g : List String → List String)
    (h : table.any (fun c => decide (c.connection_id = id)) = true) :
    channels_of (table.map (fun c =>
        if c.connection_id = id then ⟨c.connection_id, g c.channels⟩ else c)) id =
      g (channels_of table id) := by
  obtain ⟨c0, hc0⟩ : ∃ c0,
      table.find? (fun c => decide (c.connection_id = id)) = some c0 :=
    Option.isSome_iff_exists.mp (List.find?_isSome.mpr (List.any_eq_true.mp h))
  have hp := List.find?_some hc0
  have hp2 : c0.connection_id = id := by simpa using hp
  simp only [channels_of, find?_update_eq, hc0, Option.map_some', Option.getD_some]
  simp [hp2]

theorem update_map_idem (table : List ConnectionRecord) (id : String)
    (g : List String → List String) (hg : ∀ l, g (g l) = g l) :
    (table.map (fun c =>
        if c.connection_id = id then ⟨c.connection_id, g c.channels⟩ else c)).map
      (fun c =>
        if c.connection_id = id then ⟨c.connection_id, g c.channels⟩ else c) =
      table.map (fun c =>
        if c.connection_id = id then ⟨c.connection_id, g c.channels⟩ else c) := by
  rw [List.map_map]
  apply List.map_congr_left
  intro c _
  by_cases hc : c.connection_id = id <;> simp [Function.comp, hc, hg]

/-- Claim C8: for a registered connection, Subscribe and Unsubscribe are
idempotent — the second identical call leaves the registry exactly as after
the first, the subscribed channel is present (resp. absent) after the call,
and every one of the four calls returns 200, not an error. -/
theorem subscription_idempotent (table : List ConnectionRecord) (id ch : String)
    (h : table.any (fun c => decide (c.connection_id = id)) = true) :
    subscribe_update (subscribe_update table id ch) id ch =
        subscribe_update table id ch ∧
    unsubscribe_update (unsubscribe_update table id ch) id ch =
        unsubscribe_update table id ch ∧
    ch ∈ channels_of (subscribe_update table id ch) id ∧
    ch ∉ channels_of (unsubscribe_update table id ch) id ∧
    (handle_message table id "subscribe" (some ch)).1 = 200 ∧
    (handle_message (subscribe_update table id ch) id "subscribe" (some ch)).1
        = 200 ∧
    (handle_message table id "unsubscribe" (some ch)).1 = 200 ∧
    (handle_message (unsubscribe_update table id ch) id "unsubscribe"
        (some ch)).1 = 200 := by
  have hsub : subscribe_update table id ch = table.map (fun c =>
      if c.connection_id = id then ⟨c.connection_id, add_to_set c.channels ch⟩
      else c) := by
    rw [subscribe_update, if_pos h]
  have hunsub : unsubscribe_update table id ch = table.map (fun c =>
      if c.connection_id = id then
        ⟨c.connection_id, remove_from_set c.channels ch⟩
      else c) := by
    rw [unsubscribe_update, if_pos h]
  have hany1 : (subscribe_update table id ch).any
      (fun c => decide (c.connection_id = id)) = true := by
    rw [hsub]
    exact (any_update_eq table id (fun l => add_to_set l ch)).trans h
  have hany2 : (unsubscribe_update table id ch).any
      (fun c => decide (c.connection_id = id)) = true := by
    rw [hunsub]
    exact (any_update_eq table id (fun l => remove_from_set l ch)).trans h
  refine ⟨?_, ?_, ?_, ?_, rfl, rfl, rfl, rfl⟩
  · rw [subscribe_update, if_pos hany1, hsub]
    exact update_map_idem table id (fun l => add_to_set l ch)
      (fun l => add_to_set_idem l ch)
  · rw [unsubscribe_update, if_pos hany2, hunsub]
    exact update_map_idem table id (fun l => remove_from_set l ch)
      (fun l => remove_from_set_idem l ch)
  · rw [hsub, channels_of_update table id (fun l => add_to_set l ch) h]
    exact mem_add_to_set_self _ ch
  · rw [hunsub, channels_of_update table id (fun l => remove_from_set l ch) h]
    exact not_mem_remove_from_set _ ch

/-- Witness for claim C8 on a single registered connection. -/
theorem subscription_idempotent_witness :
    subscribe_update (subscribe_update [⟨"a", []⟩] "a" "c1") "a" "c1" =
        subscribe_update [⟨"a", []⟩] "a" "c1" ∧
    "c1" ∈ channels_of (subscribe_update [⟨"a", []⟩] "a" "c1") "a" := by
  have h := subscription_idempotent [⟨"a", []⟩] "a" "c1" (by decide)
  exact ⟨h.1, h.2.2.1⟩

/-!  Fan-out engine (messages.rs broadcast_message, dms.rs broadcast_dm).
     The outcome of PostToConnection for a given connection id is an oracle:
     ok, a Gone/410-class error, or any other delivery error. -/

/-- Outcome of one PostToConnection call.  gone stands for an error whose
rendering contains "Gone" or "410" (the stale-connection case of the source);
otherErr for every other delivery error, which the source only logs. -/
inductive DeliveryResult where
  | ok
  | gone
  | otherErr
deriving DecidableEq

/-- The scan of broadcast_message: every connection whose channels set
contains the conversation id. -/
def find_subscribers (table : List ConnectionRecord) (conv : String) :
    List ConnectionRecord :=
  table.filter (fun c => c.channels.contains conv)

/-- The delete_item issued on a Gone error, keyed by connection_id. -/
def delete_connection (table : List ConnectionRecord) (id : String) :
    List ConnectionRecord :=
  table.filter (fun c => decide (c.connection_id ≠ id))

/-- The delivery loop of broadcast_message (messages.rs lines 262-296,
identically dms.rs lines 465-489): push to each subscriber in turn; on a
Gone/410-class error delete that connection's record before moving on; any
other outcome leaves the registry untouched. -/
def broadcast_loop (dlv : String → DeliveryResult)
    (table : List ConnectionRecord) :
    List ConnectionRecord → List ConnectionRecord
  | [] => table
  | c :: rest =>
    match dlv c.connection_id with
    | DeliveryResult.gone =>
        broadcast_loop dlv (delete_connection table c.connection_id) rest
    | _ => broadcast_loop dlv table rest

/-- broadcast_message: scan for subscribers, return unchanged if none, else
run the delivery loop.  The function is total and returns only the new
registry state: no failure of any delivery is ever surfaced to the caller. -/
def broadcast_message (dlv : String → DeliveryResult)
    (table : List ConnectionRecord) (conv : String) : List ConnectionRecord :=
  let subs := find_subscribers table conv
  if subs.isEmpty then table else broadcast_loop dlv table subs

theorem broadcast_loop_subset (dlv : String → DeliveryResult) :
    ∀ (subs : List ConnectionRecord) (table : List ConnectionRecord)
      (x : ConnectionRecord), x ∈ broadcast_loop dlv table subs → x ∈ table := by
  intro subs
  induction subs with
  | nil => intro table x hx; exact hx
  | cons c rest ih =>
    intro table x hx
    rw [broadcast_loop] at hx
    cases hdlv : dlv c.connection_id with
    | gone =>
      rw [hdlv] at hx
      exact (List.mem_filter.mp (ih _ _ hx)).1
    | ok => rw [hdlv] at hx; exact ih _ _ hx
    | otherErr => rw [hdlv] at hx; exact ih _ _ hx

theorem broadcast_loop_gone_removed (dlv : String → DeliveryResult) :
    ∀ (subs : List ConnectionRecord) (table : List ConnectionRecord)
      (s : ConnectionRecord), s ∈ subs → dlv s.connection_id = DeliveryResult.gone →
      ∀ x ∈ broadcast_loop dlv table subs, x.connection_id ≠ s.connection_id := by
  intro subs
  induction subs with
  | nil => intro table s hs; exact absurd hs (List.not_mem_nil s)
  | cons c rest ih =>
    intro table s hs hgone x hx
    rw [broadcast_loop] at hx
    rcases List.mem_cons.mp hs with hsc | hsr
    · subst hsc
      rw [hgone] at hx
      have hxdel := broadcast_loop_subset dlv rest _ x hx
      have := (List.mem_filter.mp hxdel).2
      simpa using this
    · cases hdlv : dlv c.connection_id with
      | gone => rw [hdlv] at hx; exact ih _ s hsr hgone x hx
      | ok => rw [hdlv] at hx; exact ih _ s hsr hgone x hx
      | otherErr => rw [hdlv] at hx; exact ih _ s hsr hgone x hx

theorem broadcast_loop_survives (dlv : String → DeliveryResult) :
    ∀ (subs : List ConnectionRecord) (table : List ConnectionRecord)
      (x : ConnectionRecord), x ∈ table →
      dlv x.connection_id ≠ DeliveryResult.gone →
      x ∈ broadcast_loop dlv table subs := by
  intro subs
  induction subs with
  | nil => intro table x hx _; exact hx
  | cons c rest ih =>
    intro table x hx hne
    rw [broadcast_loop]
    cases hdlv : dlv c.connection_id with
    | gone =>
      apply ih _ x _ hne
      apply List.mem_filter.mpr
      refine ⟨hx, ?_⟩
      have hxc : x.connection_id ≠ c.connection_id := by
        intro heq
        rw [heq] at hne
        exact hne hdlv
      simpa using hxc
    | ok => exact ih _ x hx hne
    | otherErr => exact ih _ x hx hne

/-- Claim C3: during Broadcast every recipient whose delivery attempt fails
with a Gone/410-class error has its registry record deleted before delivery
continues, so FindSubscribers for any conversation no longer returns a record
with that connection id afterwards; every connection whose delivery outcome
is not Gone (success or any other error, which is merely logged) stays in the
registry untouched.  Broadcast is a total function into the new registry
state: no delivery failure is surfaced to the caller. -/
theorem broadcast_gone_cleanup (table : List ConnectionRecord)
    (dlv : String → DeliveryResult) (conv : String) :
    (∀ c ∈ find_subscribers table conv,
      dlv c.connection_id = DeliveryResult.gone →
      ∀ (conv2 : String),
        ∀ x ∈ find_subscribers (broadcast_message dlv table conv) conv2,
          x.connection_id ≠ c.connection_id) ∧
    (∀ x ∈ table, dlv x.connection_id ≠ DeliveryResult.gone →
      x ∈ broadcast_message dlv table conv) := by
  constructor
  · intro c hc hgone conv2 x hx
    have hne : (find_subscribers table conv).isEmpty = false :=
      List.isEmpty_eq_false_iff_exists_mem.mpr ⟨c, hc⟩
    rw [broadcast_message] at hx
    simp only [hne, Bool.false_eq_true, if_false] at hx
    have hx2 : x ∈ broadcast_loop dlv table (find_subscribers table conv) :=
      (List.mem_filter.mp hx).1
    exact broadcast_loop_gone_removed dlv (find_subscribers table conv)
      table c hc hgone x hx2
  · intro x hx hne
    rw [broadcast_message]
    by_cases hempty : (find_subscribers table conv).isEmpty
    · simp only [hempty, if_true]
      exact hx
    · simp only [hempty, if_false]
      exact broadcast_loop_survives dlv (find_subscribers table conv) table x hx hne

/-- Witness for claim C3: connection A (gone) subscribed to x is pruned, and
connection B (alive, delivery fails with a non-Gone error) survives. -/
theorem broadcast_gone_cleanup_witness :
    ConnectionRecord.mk "B" ["x"] ∈
      broadcast_message
        (fun id => if id = "A" then DeliveryResult.gone else DeliveryResult.otherErr)
        [⟨"A", ["x"]⟩, ⟨"B", ["x"]⟩] "x" ∧
    ("B" : String) ≠ "A" := by
  have h := broadcast_gone_cleanup [⟨"A", ["x"]⟩, ⟨"B", ["x"]⟩]
    (fun id => if id = "A" then DeliveryResult.gone else DeliveryResult.otherErr) "x"
  constructor
  · exact h.2 ⟨"B", ["x"]⟩ (by decide) (by decide)
  · exact h.1 ⟨"A", ["x"]⟩ (by decide) (by decide) "x" ⟨"B", ["x"]⟩ (by decide)

/-!  DM conversation ids (dms.rs make_conversation_id).  Rust compares &str
     byte-wise lexicographically; on UTF-8 data this coincides with the
     code-point lexicographic order of Lean strings. -/

/-- make_conversation_id (dms.rs lines 67-74): order the two user ids, then
format "min_max". -/
def make_conversation_id (user1 user2 : String) : String :=
  if user1 < user2 then user1 ++ "_" ++ user2 else user2 ++ "_" ++ user1

/-- Claim C9 as stated is false in its second conjunct: the id for users "a"
and "b" is "a_b", which is not the plain concatenation "ab" of the ordered
pair — the source interposes an underscore separator. -/
theorem make_conversation_id_counterexample :
    make_conversation_id "a" "b" = "a_b" ∧ "a_b" ≠ "a" ++ "b" := by
  constructor
  · have hab : ("a" : String) < "b" := by
      rw [String.lt_iff_toList_lt]; decide
    rw [make_conversation_id, if_pos hab]
    decide
  · decide

/-- Claim C9 (amended): make_conversation_id is commutative and deterministic,
and the result is the lexicographically ordered pair of ids joined by an
underscore. -/
theorem make_conversation_id_comm (u1 u2 : String) :
    make_conversation_id u1 u2 = make_conversation_id u2 u1 ∧
    make_conversation_id u1 u2 = min u1 u2 ++ "_" ++ max u1 u2 := by
  rcases lt_trichotomy u1 u2 with h | h | h
  · have h2 : ¬ u2 < u1 := lt_asymm h
    refine ⟨?_, ?_⟩
    · rw [make_conversation_id, if_pos h, make_conversation_id, if_neg h2]
    · rw [make_conversation_id, if_pos h, min_eq_left (le_of_lt h),
        max_eq_right (le_of_lt h)]
  · subst h
    refine ⟨rfl, ?_⟩
    rw [make_conversation_id]
    simp [min_self, max_self]
  · have h2 : ¬ u1 < u2 := lt_asymm h
    refine ⟨?_, ?_⟩
    · rw [make_conversation_id, if_neg h2, make_conversation_id, if_pos h]
    · rw [make_conversation_id, if_neg h2, min_eq_right (le_of_lt h),
        max_eq_left (le_of_lt h)]

/-!  Invite allocation (invites.rs).  The random generator is an oracle
     rng : Nat → Nat giving the index drawn for each position, and the store
     contents at allocation time are an oracle taken : String → Bool telling
     which codes already exist (the condition attribute_not_exists(code) of
     the conditional insert fails exactly on those). -/

/-- The CHARSET constant of generate_invite_code (invites.rs line 73),
transcribed byte for byte. -/
def CHARSET : List Char :=
  "ABCDEFGHJKLMNPQRSTUVWXYZabcdefghjkmnpqrstuvwxyz23456789".toList

/-- generate_invite_code (invites.rs lines 72-81): eight draws of
gen_range(0..CHARSET.len()), each indexing CHARSET. -/
def generate_invite_code (rng : Nat → Nat) : String :=
  String.mk ((List.range 8).map (fun i =>
    CHARSET.get ⟨rng i % CHARSET.length, Nat.mod_lt _ (by decide)⟩))

/-- Claim C6 as stated is false: the unambiguous alphabet of
generate_invite_code has 55 symbols (24 uppercase, 23 lowercase, 8 digits),
not 56. -/
theorem invite_charset_counterexample :
    CHARSET.length = 55 ∧ CHARSET.length ≠ 56 := by decide

/-- Claim C6 (amended): every generated invite code has exactly 8 characters,
each drawn from the 55-symbol unambiguous alphabet. -/
theorem generate_invite_code_spec (rng : Nat → Nat) :
    (generate_invite_code rng).data.length = 8 ∧
    ∀ c ∈ (generate_invite_code rng).data, c ∈ CHARSET := by
  constructor
  · simp [generate_invite_code]
  · intro c hc
    simp only [generate_invite_code] at hc
    rcases List.mem_map.mp hc with ⟨i, _, rfl⟩
    exact List.get_mem _ _ _

/-- Witness for the amended claim C6: with the identity draw sequence the code
is the first eight alphabet symbols; its length is 8 and its second character
is in the alphabet. -/
theorem generate_invite_code_spec_witness :
    (generate_invite_code (fun i => i)).data.length = 8 ∧ 'B' ∈ CHARSET :=
  ⟨(generate_invite_code_spec (fun i => i)).1,
    (generate_invite_code_spec (fun i => i)).2 'B' (by decide)⟩

/-- Mirrors struct Invite of invites.rs. -/
structure Invite where
  code : String
  server_id : String
  server_name : String
  created_by : String
  created_at : Int
  expires_at : Option Int
  max_uses : Option Int
  use_count : Int
deriving DecidableEq

/-- The retry loop of create_invite (invites.rs lines 240-279): attempt the
conditional insert of the current code; on success break with that code; on a
conditional failure return Internal (500) once attempts has reached 5,
otherwise regenerate and retry with attempts incremented.  The code tried at
attempt a is gen a (gen 0 being the code generated before the loop). -/
def create_invite_loop (taken : String → Bool) (gen : Nat → String)
    (attempts : Nat) : Except Nat String :=
  if taken (gen attempts) then
    if 5 ≤ attempts then Except.error 500
    else create_invite_loop taken gen (attempts + 1)
  else Except.ok (gen attempts)
termination_by 6 - attempts
decreasing_by omega

/-- create_invite (invites.rs lines 213-291) from the code-allocation loop
on: the role and server lookups preceding it are authorization glue resolved
into the server_name/user_id arguments. -/
def create_invite (taken : String → Bool) (gen : Nat → String)
    (server_id user_id server_name : String) (now : Int)
    (expires_in_hours : Option Int) (max_uses : Option Int) :
    Except Nat Invite :=
  let expires_at := expires_in_hours.map (fun h => now + h * 3600)
  match create_invite_loop taken gen 0 with
  | Except.error s => Except.error s
  | Except.ok code =>
      Except.ok ⟨code, server_id, server_name, user_id, now, expires_at,
        max_uses, 0⟩

/-- Claim C5: the conditional insert is retried at most 5 times after the
initial attempt; only when all six generated codes collide does create_invite
surface Internal (500), and the first non-colliding code within the budget is
committed and returned in an invite with use_count 0. -/
theorem create_invite_retry_bound (taken : String → Bool) (gen : Nat → String)
    (sid uid sname : String) (now : Int) (eih mu : Option Int) :
    ((∀ i, i ≤ 5 → taken (gen i) = true) →
      create_invite taken gen sid uid sname now eih mu = Except.error 500) ∧
    (∀ i, i ≤ 5 → taken (gen i) = false →
      (∀ j, j < i → taken (gen j) = true) →
      create_invite taken gen sid uid sname now eih mu =
        Except.ok ⟨gen i, sid, sname, uid, now,
          eih.map (fun h => now + h * 3600), mu, 0⟩) := by
  have hstep : ∀ a, taken (gen a) = true → ¬ 5 ≤ a →
      create_invite_loop taken gen a = create_invite_loop taken gen (a + 1) := by
    intro a h1 h2
    rw [create_invite_loop]
    simp [h1, h2]
  have herr : ∀ a, taken (gen a) = true → 5 ≤ a →
      create_invite_loop taken gen a = Except.error 500 := by
    intro a h1 h2
    rw [create_invite_loop]
    simp [h1, h2]
  have hok : ∀ a, taken (gen a) = false →
      create_invite_loop taken gen a = Except.ok (gen a) := by
    intro a h1
    rw [create_invite_loop]
    simp [h1]
  constructor
  · intro hall
    have hloop : create_invite_loop taken gen 0 = Except.error 500 := by
      rw [hstep 0 (hall 0 (by omega)) (by omega),
        hstep 1 (hall 1 (by omega)) (by omega),
        hstep 2 (hall 2 (by omega)) (by omega),
        hstep 3 (hall 3 (by omega)) (by omega),
        hstep 4 (hall 4 (by omega)) (by omega),
        herr 5 (hall 5 (by omega)) (by omega)]
    simp [create_invite, hloop]
  · intro i hi hfree hprev
    have hloop : create_invite_loop taken gen 0 = Except.ok (gen i) := by
      interval_cases i
      · rw [hok 0 hfree]
      · rw [hstep 0 (hprev 0 (by omega)) (by omega), hok 1 hfree]
      · rw [hstep 0 (hprev 0 (by omega)) (by omega),
          hstep 1 (hprev 1 (by omega)) (by omega), hok 2 hfree]
      · rw [hstep 0 (hprev 0 (by omega)) (by omega),
          hstep 1 (hprev 1 (by omega)) (by omega),
          hstep 2 (hprev 2 (by omega)) (by omega), hok 3 hfree]
      · rw [hstep 0 (hprev 0 (by omega)) (by omega),
          hstep 1 (hprev 1 (by omega)) (by omega),
          hstep 2 (hprev 2 (by omega)) (by omega),
          hstep 3 (hprev 3 (by omega)) (by omega), hok 4 hfree]
      · rw [hstep 0 (hprev 0 (by omega)) (by omega),
          hstep 1 (hprev 1 (by omega)) (by omega),
          hstep 2 (hprev 2 (by omega)) (by omega),
          hstep 3 (hprev 3 (by omega)) (by omega),
          hstep 4 (hprev 4 (by omega)) (by omega), hok 5 hfree]
    simp [create_invite, hloop]

/-- A one-collision store for the witness: only the code "AA" already exists. -/
def taken_demo : String → Bool := fun s => decide (s = "AA")

/-- A generator whose first draw collides and whose second is fresh. -/
def gen_demo : Nat → String := fun i => if i = 0 then "AA" else "BB"

/-- Witness for claim C5: one collision, then success on the first retry,
returning the committed code with use_count 0. -/
theorem create_invite_retry_bound_witness :
    create_invite taken_demo gen_demo "s" "u" "n" 0 none none =
      Except.ok ⟨"BB", "s", "n", "u", 0, none, none, 0⟩ := by
  have h := (create_invite_retry_bound taken_demo gen_demo "s" "u" "n" 0
    none none).2 1 (by omega) (by decide) (by
      intro j hj
      have hj0 : j = 0 := by omega
      subst hj0
      decide)
  simpa using h

/-!  Message content validation (messages.rs create_message lines 104-111 and
     dms.rs send_dm_message lines 361-367) and the DM last-message preview
     (dms.rs lines 392-397).  Content is a list of unicode scalar values;
     Rust str::len() is its UTF-8 byte count, computed here with
     Char.utf8Size. -/

/-- Rust char::is_whitespace: the Unicode White_Space property. -/
def rust_is_whitespace (c : Char) : Bool :=
  decide ((9 ≤ c.toNat ∧ c.toNat ≤ 13) ∨ c.toNat = 32 ∨ c.toNat = 133 ∨
    c.toNat = 160 ∨ c.toNat = 0x1680 ∨
    (0x2000 ≤ c.toNat ∧ c.toNat ≤ 0x200A) ∨ c.toNat = 0x2028 ∨
    c.toNat = 0x2029 ∨ c.toNat = 0x202F ∨ c.toNat = 0x205F ∨
    c.toNat = 0x3000)

/-- Rust str::trim: strip White_Space characters from both ends. -/
def trim_chars (s : List Char) : List Char :=
  ((s.dropWhile rust_is_whitespace).reverse.dropWhile rust_is_whitespace).reverse

/-- Rust str::len on the UTF-8 encoding. -/
def utf8_len (s : List Char) : Nat := (s.map Char.utf8Size).sum

/-- create_message (messages.rs lines 86-136) from content validation on: the
membership and channel checks preceding it are authorization glue, and the
store write succeeds.  The stored content is the trimmed string. -/
def create_message (channel_id author_id author_username msg_id : String)
    (now : Int) (raw : List Char) : Except Nat Message :=
  let content := trim_chars raw
  if content.isEmpty then Except.error 400
  else if 2000 < utf8_len content then Except.error 400
  else Except.ok ⟨msg_id, channel_id, author_id, author_username, content, now⟩

/-- Mirrors struct DirectMessage of dms.rs. -/
structure DirectMessage where
  id : String
  conversation_id : String
  author_id : String
  author_username : String
  content : List Char
  created_at : Int
deriving DecidableEq

/-- send_dm_message (dms.rs lines 348-424) from content validation to the
message write; the participant check is authorization glue and the store
write succeeds. -/
def send_dm_message (conversation_id author_id author_username msg_id : String)
    (now : Int) (raw : List Char) : Except Nat DirectMessage :=
  let content := trim_chars raw
  if content.isEmpty then Except.error 400
  else if 2000 < utf8_len content then Except.error 400
  else Except.ok ⟨msg_id, conversation_id, author_id, author_username, content,
    now⟩

/-- Rust byte slicing &s[..n]: the characters occupying exactly the first n
bytes when n falls on a character boundary, none otherwise (where the Rust
operation panics). -/
def slice_to : List Char → Nat → Option (List Char)
  | _, 0 => some []
  | [], _ + 1 => none
  | c :: cs, n + 1 =>
    if c.utf8Size ≤ n + 1 then
      (slice_to cs (n + 1 - c.utf8Size)).map (fun l => c :: l)
    else none

/-- The last-message preview of send_dm_message (dms.rs lines 392-397):
when content.len() exceeds 50, format!("{}...", &content[..47]), otherwise
the content itself.  A none result marks the panic of the byte slice. -/
def dm_preview (content : List Char) : Option (List Char) :=
  if 50 < utf8_len content then
    (slice_to content 47).map (fun l => l ++ "...".toList)
  else some content

/-- 501 four-byte characters: 501 characters but 2004 UTF-8 bytes. -/
def long501 : List Char := List.replicate 501 '😀'

set_option maxRecDepth 40000 in
/-- Claim C7 as stated is false: a content of 501 four-byte characters is
nonempty and at most 2000 characters long after trimming, yet the source
rejects it with 400 because its UTF-8 byte count 2004 exceeds the limit —
content.len() counts bytes, not characters. -/
theorem message_length_counterexample :
    create_message "C" "U" "u" "m" 0 long501 = Except.error 400 ∧
    (trim_chars long501).length = 501 ∧
    (trim_chars long501).length ≤ 2000 ∧
    trim_chars long501 ≠ [] := by decide

/-- Claim C7 (amended): channel and DM message creation accept a content
exactly when, after trimming, it is nonempty and at most 2000 UTF-8 bytes
long; otherwise they fail with 400 and no message is produced, and on success
the stored content is the trimmed string. -/
theorem message_content_validation (channel conv author uname mid : String)
    (now : Int) (raw : List Char) :
    (trim_chars raw ≠ [] → utf8_len (trim_chars raw) ≤ 2000 →
      create_message channel author uname mid now raw =
        Except.ok ⟨mid, channel, author, uname, trim_chars raw, now⟩ ∧
      send_dm_message conv author uname mid now raw =
        Except.ok ⟨mid, conv, author, uname, trim_chars raw, now⟩) ∧
    (trim_chars raw = [] ∨ 2000 < utf8_len (trim_chars raw) →
      create_message channel author uname mid now raw = Except.error 400 ∧
      send_dm_message conv author uname mid now raw = Except.error 400) := by
  constructor
  · intro h1 h2
    have hne : (trim_chars raw).isEmpty = false := by
      cases htt : trim_chars raw with
      | nil => exact absurd htt h1
      | cons a l => rfl
    constructor
    · simp [create_message, hne, Nat.not_lt.mpr h2]
    · simp [send_dm_message, hne, Nat.not_lt.mpr h2]
  · intro h
    rcases h with h | h
    · have he : (trim_chars raw).isEmpty = true := by rw [h]; rfl
      exact ⟨by simp [create_message, he], by simp [send_dm_message, he]⟩
    · have h1 : trim_chars raw ≠ [] := by
        intro e
        rw [e] at h
        simp [utf8_len] at h
      have hne : (trim_chars raw).isEmpty = false := by
        cases htt : trim_chars raw with
        | nil => exact absurd htt h1
        | cons a l => rfl
      exact ⟨by simp [create_message, hne, h], by simp [send_dm_message, hne, h]⟩

/-- Witness for the amended claim C7: " hi " is stored as its trimmed form. -/
theorem message_content_validation_witness :
    create_message "C" "U" "u" "m" 7 (" hi ".toList) =
      Except.ok ⟨"m", "C", "U", "u", ['h', 'i'], 7⟩ := by
  have h := (message_content_validation "C" "CV" "U" "u" "m" 7
    (" hi ".toList)).1 (by decide) (by decide)
  exact h.1.trans (by decide)

/-- 24 three-byte characters: 72 UTF-8 bytes, no character boundary at 47. -/
def euro24 : List Char := List.replicate 24 '€'

/-- Claim C10 is violated by the source (code bug): a DM content of 24 euro
signs (72 bytes) passes validation and is stored, its byte length exceeds 50,
yet byte offset 47 falls inside the sixteenth character, so the preview slice
&content[..47] is not well-defined and the Rust expression panics (modelled
by slice_to returning none). -/
theorem dm_preview_panic :
    send_dm_message "cv" "a" "u" "m" 0 euro24 =
      Except.ok ⟨"m", "cv", "a", "u", euro24, 0⟩ ∧
    utf8_len euro24 = 72 ∧
    dm_preview euro24 = none := by decide

end Agorusta
